import Mathlib

/-!
Verification development for the jwskate repository (JSON Web Key model).

Byte strings are modelled as `List Nat` with every element below 256.
The base64url helpers of `src/jwskate/utils.py` are embedded first,
including the lenient padding behaviour of CPython's `binascii.a2b_base64`
that `base64.urlsafe_b64decode` delegates to.
-/

namespace Jwskate

/-- Byte strings (and ASCII strings) are lists of naturals below 256. -/
abbrev Bytes := List Nat

/-- The urlsafe base64 alphabet as a function from a 6-bit value to its
ASCII code: `A-Z`, `a-z`, `0-9`, `-`, `_` (mirrors the table used by
`base64.urlsafe_b64encode`). -/
def encChar (v : Nat) : Nat :=
  if v < 26 then v + 65
  else if v < 52 then v + 71
  else if v < 62 then v - 4
  else if v = 62 then 45
  else 95

/-- Inverse alphabet lookup, as in the `table_a2b_base64` used by
`binascii.a2b_base64`: returns the 6-bit value of an ASCII code, or
`none` for a character outside the urlsafe alphabet. -/
def decChar (c : Nat) : Option Nat :=
  if 65 ≤ c ∧ c ≤ 90 then some (c - 65)
  else if 97 ≤ c ∧ c ≤ 122 then some (c - 71)
  else if 48 ≤ c ∧ c ≤ 57 then some (c + 4)
  else if c = 45 then some 62
  else if c = 95 then some 63
  else none

/-- The body of base64 encoding (no padding): each 3-byte group becomes 4
alphabet characters, a trailing 2-byte group becomes 3 characters and a
trailing 1-byte group becomes 2 characters. -/
def encBody : Bytes → Bytes
  | b1 :: b2 :: b3 :: rest =>
      encChar (b1 / 4) :: encChar (b1 % 4 * 16 + b2 / 16) ::
        encChar (b2 % 16 * 4 + b3 / 64) :: encChar (b3 % 64) :: encBody rest
  | [b1, b2] => [encChar (b1 / 4), encChar (b1 % 4 * 16 + b2 / 16), encChar (b2 % 16 * 4)]
  | [b1] => [encChar (b1 / 4), encChar (b1 % 4 * 16)]
  | [] => []

/-- Number of `=` padding characters produced by `base64.urlsafe_b64encode`
for an input of the given byte length. -/
def padOf (n : Nat) : Nat :=
  match n % 3 with
  | 0 => 0
  | 1 => 2
  | _ => 1

/-- Model of `base64.urlsafe_b64encode`: body plus `=` padding (ASCII 61). -/
def urlsafe_b64encode (data : Bytes) : Bytes :=
  encBody data ++ List.replicate (padOf data.length) 61

/-- Model of `bytes.rstrip(b"=")`: removes all trailing `=` (ASCII 61). -/
def rstripPad (l : Bytes) : Bytes :=
  (l.reverse.dropWhile (fun c => c == 61)).reverse

/-- Model of `b64u_encode` from `src/jwskate/utils.py` with the default
`padded=False`: urlsafe base64 then strip the `=` padding. -/
def b64u_encode (data : Bytes) : Bytes :=
  rstripPad (urlsafe_b64encode data)

/-- Model of the decoding loop of CPython's `binascii.a2b_base64`
(non-strict mode), which `base64.urlsafe_b64decode` calls: state is the
position in the current 4-character group, the pending bits and the count
of `=` seen; a `=` while at least two characters of the final group have
been read and enough padding has accumulated ends the decoding
successfully; characters outside the alphabet are skipped; leftover
characters in an unfinished group are an error. -/
def a2b_base64 : Bytes → Nat → Nat → Nat → Option Bytes
  | [], quadPos, _, _ => if quadPos = 0 then some [] else none
  | c :: rest, quadPos, leftchar, pads =>
    if c = 61 then
      if 2 ≤ quadPos ∧ 4 ≤ quadPos + pads + 1 then some []
      else a2b_base64 rest quadPos leftchar (pads + 1)
    else
      match decChar c with
      | none => a2b_base64 rest quadPos leftchar pads
      | some v =>
        match quadPos with
        | 0 => a2b_base64 rest 1 v pads
        | 1 => (a2b_base64 rest 2 (v % 16) pads).map (fun l => (leftchar * 4 + v / 16) :: l)
        | 2 => (a2b_base64 rest 3 (v % 4) pads).map (fun l => (leftchar * 16 + v / 4) :: l)
        | _ => (a2b_base64 rest 0 0 pads).map (fun l => (leftchar * 64 + v) :: l)

/-- Model of `base64.urlsafe_b64decode`. -/
def urlsafe_b64decode (data : Bytes) : Option Bytes :=
  a2b_base64 data 0 0 0

/-- Model of `b64u_decode` from `src/jwskate/utils.py`: appends
`len(data) % 4` padding characters, then urlsafe base64 decoding. -/
def b64u_decode (data : Bytes) : Option Bytes :=
  urlsafe_b64decode (data ++ List.replicate (data.length % 4) 61)

theorem encChar_spec : ∀ v, v < 64 → decChar (encChar v) = some v ∧ encChar v ≠ 61 := by
  decide

theorem a2b_base64_quad (a b c : Nat) (ha : a < 256) (hb : b < 256) (hc : c < 256)
    (t : Bytes) (pads : Nat) :
    a2b_base64 (encChar (a / 4) :: encChar (a % 4 * 16 + b / 16) ::
        encChar (b % 16 * 4 + c / 64) :: encChar (c % 64) :: t) 0 0 pads
      = (a2b_base64 t 0 0 pads).map (fun l => a :: b :: c :: l) := by
  have h1 := encChar_spec (a / 4) (by omega)
  have h2 := encChar_spec (a % 4 * 16 + b / 16) (by omega)
  have h3 := encChar_spec (b % 16 * 4 + c / 64) (by omega)
  have h4 := encChar_spec (c % 64) (by omega)
  simp only [a2b_base64, h1.1, h2.1, h3.1, h4.1, if_neg h1.2, if_neg h2.2, if_neg h3.2,
    if_neg h4.2, Option.map_map]
  cases hres : a2b_base64 t 0 0 pads with
  | none => rfl
  | some l =>
    simp only [Option.map_some', Function.comp_apply, Option.some.injEq, List.cons.injEq]
    refine ⟨by omega, by omega, by omega, trivial⟩

theorem chunk3_induction {P : Bytes → Prop} (h0 : P []) (h1 : ∀ a, P [a])
    (h2 : ∀ a b, P [a, b]) (h3 : ∀ a b c rest, P rest → P (a :: b :: c :: rest)) :
    ∀ l, P l
  | [] => h0
  | [a] => h1 a
  | [a, b] => h2 a b
  | a :: b :: c :: rest => h3 a b c rest (chunk3_induction h0 h1 h2 h3 rest)

theorem a2b_base64_tail1 (a : Nat) (ha : a < 256) :
    a2b_base64 [encChar (a / 4), encChar (a % 4 * 16), 61, 61] 0 0 0 = some [a] := by
  have h1 := encChar_spec (a / 4) (by omega)
  have h2 := encChar_spec (a % 4 * 16) (by omega)
  simp only [a2b_base64, h1.1, h2.1, if_neg h1.2, if_neg h2.2]
  norm_num
  omega

theorem a2b_base64_tail2 (a b : Nat) (ha : a < 256) (hb : b < 256) :
    a2b_base64 [encChar (a / 4), encChar (a % 4 * 16 + b / 16), encChar (b % 16 * 4), 61, 61, 61]
      0 0 0 = some [a, b] := by
  have h1 := encChar_spec (a / 4) (by omega)
  have h2 := encChar_spec (a % 4 * 16 + b / 16) (by omega)
  have h3 := encChar_spec (b % 16 * 4) (by omega)
  simp only [a2b_base64, h1.1, h2.1, h3.1, if_neg h1.2, if_neg h2.2, if_neg h3.2]
  norm_num
  constructor
  · omega
  · omega

theorem a2b_encBody : ∀ b : Bytes, (∀ x ∈ b, x < 256) →
    a2b_base64 (encBody b ++ List.replicate ((encBody b).length % 4) 61) 0 0 0 = some b := by
  intro b
  induction b using chunk3_induction with
  | h0 => intro _; rfl
  | h1 a =>
    intro h
    have ha : a < 256 := h a (by simp)
    simpa [encBody, List.replicate] using a2b_base64_tail1 a ha
  | h2 a b =>
    intro h
    have ha : a < 256 := h a (by simp)
    have hb : b < 256 := h b (by simp)
    simpa [encBody, List.replicate] using a2b_base64_tail2 a b ha hb
  | h3 a b c rest ih =>
    intro h
    have ha : a < 256 := h a (by simp)
    have hb : b < 256 := h b (by simp)
    have hc : c < 256 := h c (by simp)
    have hrest : ∀ x ∈ rest, x < 256 := fun x hx => h x (by simp [hx])
    have hbody : encBody (a :: b :: c :: rest)
        = encChar (a / 4) :: encChar (a % 4 * 16 + b / 16) ::
          encChar (b % 16 * 4 + c / 64) :: encChar (c % 64) :: encBody rest := rfl
    rw [hbody]
    have hlen : (encChar (a / 4) :: encChar (a % 4 * 16 + b / 16) ::
        encChar (b % 16 * 4 + c / 64) :: encChar (c % 64) :: encBody rest).length % 4
        = (encBody rest).length % 4 := by
      simp [List.length_cons]
      omega
    rw [hlen, List.cons_append, List.cons_append, List.cons_append, List.cons_append,
      a2b_base64_quad a b c ha hb hc _ 0, ih hrest]
    rfl

theorem encBody_ne61 : ∀ b : Bytes, (∀ x ∈ b, x < 256) → ∀ y ∈ encBody b, y ≠ 61 := by
  intro b
  induction b using chunk3_induction with
  | h0 => intro _ y hy; simp [encBody] at hy
  | h1 a =>
    intro h y hy
    have ha : a < 256 := h a (by simp)
    simp [encBody] at hy
    rcases hy with hy | hy
    · exact hy ▸ (encChar_spec _ (by omega)).2
    · exact hy ▸ (encChar_spec _ (by omega)).2
  | h2 a b =>
    intro h y hy
    have ha : a < 256 := h a (by simp)
    have hb : b < 256 := h b (by simp)
    simp [encBody] at hy
    rcases hy with hy | hy | hy
    · exact hy ▸ (encChar_spec _ (by omega)).2
    · exact hy ▸ (encChar_spec _ (by omega)).2
    · exact hy ▸ (encChar_spec _ (by omega)).2
  | h3 a b c rest ih =>
    intro h y hy
    have ha : a < 256 := h a (by simp)
    have hb : b < 256 := h b (by simp)
    have hc : c < 256 := h c (by simp)
    have hrest : ∀ x ∈ rest, x < 256 := fun x hx => h x (by simp [hx])
    have hbody : encBody (a :: b :: c :: rest)
        = encChar (a / 4) :: encChar (a % 4 * 16 + b / 16) ::
          encChar (b % 16 * 4 + c / 64) :: encChar (c % 64) :: encBody rest := rfl
    rw [hbody] at hy
    simp at hy
    rcases hy with hy | hy | hy | hy | hy
    · exact hy ▸ (encChar_spec _ (by omega)).2
    · exact hy ▸ (encChar_spec _ (by omega)).2
    · exact hy ▸ (encChar_spec _ (by omega)).2
    · exact hy ▸ (encChar_spec _ (by omega)).2
    · exact ih hrest y hy

theorem dropWhile61_replicate (p : Nat) (m : Bytes) :
    List.dropWhile (fun c => c == 61) (List.replicate p 61 ++ m)
      = List.dropWhile (fun c => c == 61) m := by
  induction p with
  | zero => simp
  | succ n ih => simp [List.replicate_succ, List.dropWhile_cons, ih]

theorem dropWhile61_self (m : Bytes) (hm : ∀ x ∈ m, x ≠ 61) :
    List.dropWhile (fun c => c == 61) m = m := by
  cases m with
  | nil => rfl
  | cons h t =>
    have hne : (h == 61) = false := by simpa using hm h (by simp)
    simp [List.dropWhile_cons, hne]

theorem rstripPad_append (l : Bytes) (p : Nat) (hl : ∀ x ∈ l, x ≠ 61) :
    rstripPad (l ++ List.replicate p 61) = l := by
  unfold rstripPad
  rw [List.reverse_append, List.reverse_replicate, dropWhile61_replicate,
    dropWhile61_self _ (fun x hx => hl x (List.mem_reverse.mp hx)), List.reverse_reverse]

theorem b64u_encode_eq_body (b : Bytes) (h : ∀ x ∈ b, x < 256) :
    b64u_encode b = encBody b := by
  unfold b64u_encode urlsafe_b64encode
  exact rstripPad_append _ _ (encBody_ne61 b h)

/-- The unpadded base64url decoder inverts the unpadded encoder on byte
strings; this is the shared round-trip fact behind several claims. -/
theorem b64u_decode_encode (b : Bytes) (h : ∀ x ∈ b, x < 256) :
    b64u_decode (b64u_encode b) = some b := by
  rw [b64u_encode_eq_body b h]
  unfold b64u_decode urlsafe_b64decode
  exact a2b_encBody b h

/-! Model of `src/jwskate/jwk/symetric.py`.  The external `cryptography`
primitives (HMAC, the AEAD ciphers, AES key wrap) and the random source
`secrets.token_bytes` are opaque to the repository, so they enter the
embedding as function parameters (`hmacF`, `prim`, `primD`, `wrapF`,
`unwrapF`, `tok`). -/

/-- ASCII codes of an identifier string. -/
def strBytes (s : String) : Bytes := s.data.map Char.toNat

/-- The error kinds raised by the key operations (spec section 7); the
source raises `ValueError`/`KeyError` subclasses with these meanings. -/
inductive JwkError where
  | unsupportedAlg (alg : String)
  | unsupportedCurve (crv : String)
  | keySizeMismatch
  | decodeFailure
  | noAlgorithmSpecified
  | authenticationFailure
  | invalidUnwrap
  | coordinateOverflow
  deriving DecidableEq, Repr

/-- The hash algorithms named in the HMAC signing table. -/
inductive HashAlg where
  | SHA256
  | SHA384
  | SHA512
  deriving DecidableEq, Repr

/-- The AEAD cipher classes named in the encryption table
(`aead.AESCCM` and `aead.AESGCM` from `cryptography`). -/
inductive AeadClass where
  | AESCCM
  | AESGCM
  deriving DecidableEq, Repr

/-- A symmetric JWK: the `k` parameter holds the base64url-encoded raw
secret (as an ASCII byte string) and `alg` the optional declared default
algorithm. -/
structure SymmetricJwk where
  k : Bytes
  alg : Option String
  deriving DecidableEq, Repr

namespace SymmetricJwk

/-- `SymmetricJwk.SIGNATURE_ALGORITHMS`: name to (hash, min key size);
the MAC construction is `hmac.HMAC` for every row. -/
def SIGNATURE_ALGORITHMS : List (String × HashAlg × Nat) :=
  [("HS256", HashAlg.SHA256, 256),
   ("HS384", HashAlg.SHA384, 384),
   ("HS512", HashAlg.SHA512, 512)]

/-- `SymmetricJwk.KEY_MANAGEMENT_ALGORITHMS`: name to required key size;
the wrap/unwrap methods are `keywrap.aes_key_wrap`/`aes_key_unwrap` for
every row (the oracles `wrapF`/`unwrapF` below). -/
def KEY_MANAGEMENT_ALGORITHMS : List (String × Nat) :=
  [("A128KW", 128), ("A192KW", 192), ("A256KW", 256)]

/-- `SymmetricJwk.ENCRYPTION_ALGORITHMS`: name to
(cipher class, key size, iv size, tag size), values as in the source. -/
def ENCRYPTION_ALGORITHMS : List (String × AeadClass × Nat × Nat × Nat) :=
  [("A128CBC-HS256", AeadClass.AESCCM, 128, 96, 16),
   ("A192CBC-HS384", AeadClass.AESCCM, 192, 96, 24),
   ("A256CBC-HS512", AeadClass.AESCCM, 256, 96, 32),
   ("A128GCM", AeadClass.AESGCM, 128, 96, 16),
   ("A192GCM", AeadClass.AESGCM, 192, 96, 16),
   ("A256GCM", AeadClass.AESGCM, 256, 96, 16)]

/-- The parameter mapping literally built by `SymmetricJwk.from_bytes`:
`dict(key="oct", k=b64u_encode(k), **params)` (note the source writes the
entry under the name `"key"`). -/
def from_bytes_params (kb : Bytes) : List (String × Bytes) :=
  [("key", strBytes "oct"), ("k", b64u_encode kb)]

/-- `SymmetricJwk.from_bytes`: the returned key object, keeping the `k`
parameter and an optional `alg` member. -/
def from_bytes (kb : Bytes) (alg : Option String) : SymmetricJwk :=
  { k := b64u_encode kb, alg := alg }

/-- `SymmetricJwk.generate`: `secrets.token_bytes(size)` (the random
source is the oracle `tok`), then `from_bytes`. -/
def generate (tok : Nat → Bytes) (size : Nat) (alg : Option String) : SymmetricJwk :=
  from_bytes (tok size) alg

/-- `SymmetricJwk.generate_for_alg`: pick the table size for the target
algorithm and pass it to `generate`. -/
def generate_for_alg (tok : Nat → Bytes) (alg : String) : Except JwkError SymmetricJwk :=
  match SIGNATURE_ALGORITHMS.lookup alg with
  | some (_, min_key_size) => .ok (generate tok min_key_size (some alg))
  | none =>
    match ENCRYPTION_ALGORITHMS.lookup alg with
    | some (_, key_size, _, _) => .ok (generate tok key_size (some alg))
    | none => .error (.unsupportedAlg alg)

/-- `SymmetricJwk.key`: the raw key, `b64u_decode(self.k)`. -/
def key (j : SymmetricJwk) : Option Bytes := b64u_decode j.k

/-- `SymmetricJwk.key_size`: `len(self.key) * 8`. -/
def key_size (j : SymmetricJwk) : Option Nat := (key j).map (fun b => b.length * 8)

end SymmetricJwk

/-- Modelled from the spec: `get_alg` lives in `src/jwskate/jwk/alg.py`,
which is not under `src/`; spec section 4.4 gives its contract: an
explicitly supplied algorithm wins and must belong to the supported set
(`UnsupportedAlgorithm` otherwise); else the key's declared default
algorithm; else `NoAlgorithmSpecified`. -/
def get_alg (keyAlg : Option String) (alg : Option String) (supported : List String) :
    Except JwkError String :=
  match alg with
  | some a => if a ∈ supported then .ok a else .error (.unsupportedAlg a)
  | none =>
    match keyAlg with
    | some a => .ok a
    | none => .error .noAlgorithmSpecified

/-- Modelled from the spec: `get_algs` (also from the missing
`src/jwskate/jwk/alg.py`) resolves the ordered candidate list for
verification: the explicit algorithm if given (checked against the
supported set), else the caller-supplied candidate list, else the key's
declared default, else the full supported set. -/
def get_algs (keyAlg alg : Option String) (algs : Option (List String))
    (supported : List String) : Except JwkError (List String) :=
  match alg with
  | some a => if a ∈ supported then .ok [a] else .error (.unsupportedAlg a)
  | none =>
    match algs with
    | some l => .ok l
    | none =>
      match keyAlg with
      | some a => .ok [a]
      | none => .ok supported

namespace SymmetricJwk

/-- Modelled from the spec: the base class method (missing `base.py`)
returns the identifiers of the signing table for a symmetric key. -/
def supported_signing_algorithms (_ : SymmetricJwk) : List String :=
  SIGNATURE_ALGORITHMS.map (fun r => r.1)

/-- Modelled from the spec: identifiers of the key-management table. -/
def supported_key_management_algorithms (_ : SymmetricJwk) : List String :=
  KEY_MANAGEMENT_ALGORITHMS.map (fun r => r.1)

/-- Modelled from the spec: identifiers of the encryption table. -/
def supported_encryption_algorithms (_ : SymmetricJwk) : List String :=
  ENCRYPTION_ALGORITHMS.map (fun r => r.1)

/-- `SymmetricJwk.sign`: resolve the algorithm, look it up in the signing
table (`ValueError` on a miss), then compute the MAC over the raw key and
the data.  `hmacF` is the external `hmac.HMAC(key, hash)` computation. -/
def sign (hmacF : HashAlg → Bytes → Bytes → Bytes) (j : SymmetricJwk) (data : Bytes)
    (alg : Option String) : Except JwkError Bytes :=
  match get_alg j.alg alg (supported_signing_algorithms j) with
  | .error e => .error e
  | .ok a =>
  match SIGNATURE_ALGORITHMS.lookup a with
  | none => .error (.unsupportedAlg a)
  | some (hashalg, _min_key_size) =>
    match key j with
    | none => .error .decodeFailure
    | some kb => .ok (hmacF hashalg kb data)

/-- The candidate loop of `SymmetricJwk.verify`: recompute the MAC for
each candidate algorithm in order, returning true on the first byte-equal
match and false when the candidates are exhausted. -/
def verifyLoop (hmacF : HashAlg → Bytes → Bytes → Bytes) (j : SymmetricJwk)
    (data signature : Bytes) : List String → Except JwkError Bool
  | [] => .ok false
  | a :: rest =>
    match SIGNATURE_ALGORITHMS.lookup a with
    | none => .error (.unsupportedAlg a)
    | some (hashalg, _min_key_size) =>
      match key j with
      | none => .error .decodeFailure
      | some kb =>
        if hmacF hashalg kb data = signature then .ok true
        else verifyLoop hmacF j data signature rest

/-- `SymmetricJwk.verify`: resolve the candidate list, then run the
candidate loop. -/
def verify (hmacF : HashAlg → Bytes → Bytes → Bytes) (j : SymmetricJwk)
    (data signature : Bytes) (alg : Option String) (algs : Option (List String)) :
    Except JwkError Bool :=
  match get_algs j.alg alg algs (supported_signing_algorithms j) with
  | .error e => .error e
  | .ok cands => verifyLoop hmacF j data signature cands

/-- `SymmetricJwk.encrypt`: resolve the algorithm, look up
(cipher class, key size, iv size, tag size), reject a key whose bit size
differs from the table's key size, generate `token_bytes(iv_size)` when
no IV is supplied, run the AEAD cipher (`prim`, returning the combined
ciphertext-with-tag), and split at total length minus the tag size. -/
def encrypt (prim : AeadClass → Bytes → Bytes → Bytes → Option Bytes → Bytes)
    (tok : Nat → Bytes) (j : SymmetricJwk) (plaintext : Bytes) (aad : Option Bytes)
    (alg : Option String) (iv : Option Bytes) : Except JwkError (Bytes × Bytes × Bytes) :=
  match get_alg j.alg alg (supported_encryption_algorithms j) with
  | .error e => .error e
  | .ok a =>
  match ENCRYPTION_ALGORITHMS.lookup a with
  | none => .error (.unsupportedAlg a)
  | some (alg_class, required_key_size, iv_size, tag_size) =>
    match key j with
    | none => .error .decodeFailure
    | some kb =>
      if kb.length * 8 ≠ required_key_size then .error .keySizeMismatch
      else
        let iv2 := match iv with
          | some v => v
          | none => tok iv_size
        let cyphertext_with_tag := prim alg_class kb iv2 plaintext aad
        .ok (cyphertext_with_tag.take (cyphertext_with_tag.length - tag_size),
          cyphertext_with_tag.drop (cyphertext_with_tag.length - tag_size), iv2)

/-- `SymmetricJwk.decrypt`: resolve the algorithm, validate the key size,
reassemble ciphertext plus tag and run AEAD decryption (`primD`; `none`
models the primitive's authentication failure). -/
def decrypt (primD : AeadClass → Bytes → Bytes → Bytes → Option Bytes → Option Bytes)
    (j : SymmetricJwk) (cyphertext tag iv : Bytes) (aad : Option Bytes)
    (alg : Option String) : Except JwkError Bytes :=
  match get_alg j.alg alg (supported_encryption_algorithms j) with
  | .error e => .error e
  | .ok a =>
  match ENCRYPTION_ALGORITHMS.lookup a with
  | none => .error (.unsupportedAlg a)
  | some (alg_class, required_key_size, _iv_size, _tag_size) =>
    match key j with
    | none => .error .decodeFailure
    | some kb =>
      if kb.length * 8 ≠ required_key_size then .error .keySizeMismatch
      else
        match primD alg_class kb iv (cyphertext ++ tag) aad with
        | none => .error .authenticationFailure
        | some plaintext => .ok plaintext

/-- `SymmetricJwk.wrap_key`: resolve the algorithm from the key-wrap
table, validate the key size, delegate to the AES key-wrap primitive. -/
def wrap_key (wrapF : Bytes → Bytes → Bytes) (j : SymmetricJwk) (keyBytes : Bytes)
    (alg : Option String) : Except JwkError Bytes :=
  match get_alg j.alg alg (supported_key_management_algorithms j) with
  | .error e => .error e
  | .ok a =>
  match KEY_MANAGEMENT_ALGORITHMS.lookup a with
  | none => .error (.unsupportedAlg a)
  | some required_key_size =>
    match key j with
    | none => .error .decodeFailure
    | some kb =>
      if kb.length * 8 ≠ required_key_size then .error .keySizeMismatch
      else .ok (wrapF kb keyBytes)

/-- `SymmetricJwk.unwrap_key`: as `wrap_key` with the unwrap primitive
(`none` models the primitive's `InvalidUnwrap`). -/
def unwrap_key (unwrapF : Bytes → Bytes → Option Bytes) (j : SymmetricJwk)
    (cypherkey : Bytes) (alg : Option String) : Except JwkError Bytes :=
  match get_alg j.alg alg (supported_key_management_algorithms j) with
  | .error e => .error e
  | .ok a =>
  match KEY_MANAGEMENT_ALGORITHMS.lookup a with
  | none => .error (.unsupportedAlg a)
  | some required_key_size =>
    match key j with
    | none => .error .decodeFailure
    | some kb =>
      if kb.length * 8 ≠ required_key_size then .error .keySizeMismatch
      else
        match unwrapF kb cypherkey with
        | none => .error .invalidUnwrap
        | some plaintext => .ok plaintext

theorem key_from_bytes (kb : Bytes) (h : ∀ x ∈ kb, x < 256) (a : Option String) :
    key (from_bytes kb a) = some kb :=
  b64u_decode_encode kb h

theorem key_size_from_bytes (kb : Bytes) (h : ∀ x ∈ kb, x < 256) (a : Option String) :
    key_size (from_bytes kb a) = some (kb.length * 8) := by
  rw [key_size, key_from_bytes kb h a]
  rfl

end SymmetricJwk

/-! Model of `src/jwskate/jwk/ec.py`.  The curve descriptors and the EC
signature algorithm objects are imported there from `jwskate.jwa`, which
is not under `src/`, so they are modelled from the spec. -/

/-- Modelled from the spec: the `EllipticCurve` descriptors of the
missing `jwskate.jwa` module, reduced to the attributes the claims use:
curve name and coordinate size in bytes (spec section 4.1). -/
structure EllipticCurve where
  name : String
  coordinate_size : Nat
  deriving DecidableEq, Repr

/-- Modelled from the spec: P-256 has 32-byte coordinates. -/
def P_256 : EllipticCurve := { name := "P-256", coordinate_size := 32 }

/-- Modelled from the spec: P-384 has 48-byte coordinates. -/
def P_384 : EllipticCurve := { name := "P-384", coordinate_size := 48 }

/-- Modelled from the spec: P-521 has 66-byte coordinates. -/
def P_521 : EllipticCurve := { name := "P-521", coordinate_size := 66 }

/-- Modelled from the spec: secp256k1 has 32-byte coordinates. -/
def secp256k1 : EllipticCurve := { name := "secp256k1", coordinate_size := 32 }

/-- Modelled from the spec: an EC signature algorithm descriptor from the
missing `jwskate.jwa` module: identifier and required curve. -/
structure EcSignatureAlg where
  name : String
  curve : EllipticCurve
  deriving DecidableEq, Repr

/-- Modelled from the spec: ES256 requires P-256. -/
def ES256 : EcSignatureAlg := { name := "ES256", curve := P_256 }

/-- Modelled from the spec: ES384 requires P-384. -/
def ES384 : EcSignatureAlg := { name := "ES384", curve := P_384 }

/-- Modelled from the spec: ES512 requires P-521. -/
def ES512 : EcSignatureAlg := { name := "ES512", curve := P_521 }

/-- Modelled from the spec: ES256K requires secp256k1. -/
def ES256K : EcSignatureAlg := { name := "ES256K", curve := secp256k1 }

/-- Big-endian bytes of an integer, fixed width (the semantics of
`int.to_bytes(length, "big")` that `BinaPy.from_int` delegates to). -/
def natToBytesBE : Nat → Nat → Bytes
  | 0, _ => []
  | n + 1, i => natToBytesBE n (i / 256) ++ [i % 256]

/-- `BinaPy.from_int(i, length)`: fixed-width big-endian encoding,
failing (`OverflowError`) when the integer does not fit. -/
def intToBytes (i : Nat) (length : Nat) : Option Bytes :=
  if i < 256 ^ length then some (natToBytesBE length i) else none

/-- `BinaPy.to_int()`: big-endian integer of a byte string
(`int.from_bytes(b, "big")`). -/
def bytesToNat (l : Bytes) : Nat := l.foldl (fun acc b => acc * 256 + b) 0

/-- An EC JWK: curve identifier, base64url-encoded coordinates (as ASCII
byte strings) and the optional private scalar and default algorithm. -/
structure ECJwk where
  crv : String
  x : Bytes
  y : Bytes
  d : Option Bytes
  alg : Option String
  deriving DecidableEq, Repr

namespace ECJwk

/-- `ECJwk.CURVES`: registry from curve name to descriptor, built from
`[P_256, P_384, P_521, secp256k1]`. -/
def CURVES : List (String × EllipticCurve) :=
  [P_256, P_384, P_521, secp256k1].map (fun c => (c.name, c))

/-- `ECJwk.SIGNATURE_ALGORITHMS`: identifier to algorithm descriptor,
built from `[ES256, ES384, ES512, ES256K]`. -/
def SIGNATURE_ALGORITHMS : List (String × EcSignatureAlg) :=
  [ES256, ES384, ES512, ES256K].map (fun a => (a.name, a))

/-- `ECJwk.get_curve`: registry lookup, `UnsupportedEllipticCurve` on a
miss. -/
def get_curve (crv : String) : Except JwkError EllipticCurve :=
  match CURVES.lookup crv with
  | some c => .ok c
  | none => .error (.unsupportedCurve crv)

/-- The parameter mapping literally built by `ECJwk.public`:
`dict(key="EC", crv=crv, x=..., y=...)` with the coordinates encoded at
the curve's coordinate size (note the source writes the type tag under
the name `"key"`). -/
def public (crv : String) (x y : Nat) : Except JwkError (List (String × Bytes)) :=
  match get_curve crv with
  | .error e => .error e
  | .ok curve =>
    match intToBytes x curve.coordinate_size, intToBytes y curve.coordinate_size with
    | some xb, some yb =>
      .ok [("key", strBytes "EC"), ("crv", strBytes crv),
        ("x", b64u_encode xb), ("y", b64u_encode yb)]
    | _, _ => .error .coordinateOverflow

/-- The parameter mapping literally built by `ECJwk.private`:
`dict(kty="EC", crv=crv, x=..., y=..., d=...)`, coordinates and scalar
encoded at the curve's coordinate size. -/
def privateFactory (crv : String) (x y d : Nat) : Except JwkError (List (String × Bytes)) :=
  match get_curve crv with
  | .error e => .error e
  | .ok curve =>
    match intToBytes x curve.coordinate_size, intToBytes y curve.coordinate_size,
        intToBytes d curve.coordinate_size with
    | some xb, some yb, some db =>
      .ok [("kty", strBytes "EC"), ("crv", strBytes crv),
        ("x", b64u_encode xb), ("y", b64u_encode yb), ("d", b64u_encode db)]
    | _, _, _ => .error .coordinateOverflow

/-- `ECJwk._validate`: fails with `UnsupportedEllipticCurve` when `crv`
is not registered, then delegates to the base entity's required/kind
validation (modelled from the spec for the missing `base.py`: each
present b64u parameter must decode; no length constraint is applied). -/
def _validate (j : ECJwk) : Except JwkError Unit :=
  match CURVES.lookup j.crv with
  | none => .error (.unsupportedCurve j.crv)
  | some _ =>
    match b64u_decode j.x, b64u_decode j.y with
    | some _, some _ =>
      match j.d with
      | none => .ok ()
      | some db =>
        match b64u_decode db with
        | some _ => .ok ()
        | none => .error .decodeFailure
    | _, _ => .error .decodeFailure

/-- `ECJwk.x_coordinate`: base64url-decode the `x` parameter and read it
as a big-endian integer (no length check). -/
def x_coordinate (j : ECJwk) : Option Nat :=
  (b64u_decode j.x).map bytesToNat

/-- `ECJwk.y_coordinate`: as `x_coordinate` for `y`. -/
def y_coordinate (j : ECJwk) : Option Nat :=
  (b64u_decode j.y).map bytesToNat

/-- `ECJwk.ecc_private_key`: as `x_coordinate` for the `d` parameter. -/
def ecc_private_key (j : ECJwk) : Option Nat :=
  j.d.bind (fun db => (b64u_decode db).map bytesToNat)

/-- `ECJwk.supported_signing_algorithms`: the identifiers of the EC
signing table whose required curve equals this key's curve. -/
def supported_signing_algorithms (j : ECJwk) : Except JwkError (List String) :=
  match get_curve j.crv with
  | .error e => .error e
  | .ok curve =>
    .ok ((SIGNATURE_ALGORITHMS.filter (fun r => decide (r.2.curve = curve))).map (fun r => r.1))

end ECJwk

theorem natToBytesBE_length : ∀ n i, (natToBytesBE n i).length = n := by
  intro n
  induction n with
  | zero => intro i; rfl
  | succ m ih => intro i; simp [natToBytesBE, ih]

theorem natToBytesBE_lt : ∀ n i, ∀ x ∈ natToBytesBE n i, x < 256 := by
  intro n
  induction n with
  | zero => intro i x hx; simp [natToBytesBE] at hx
  | succ m ih =>
    intro i x hx
    simp only [natToBytesBE, List.mem_append, List.mem_singleton] at hx
    rcases hx with hx | hx
    · exact ih (i / 256) x hx
    · omega

theorem bytesToNat_append_one (l : Bytes) (b : Nat) :
    bytesToNat (l ++ [b]) = bytesToNat l * 256 + b := by
  simp [bytesToNat, List.foldl_append]

theorem bytesToNat_natToBytesBE : ∀ n i, i < 256 ^ n → bytesToNat (natToBytesBE n i) = i := by
  intro n
  induction n with
  | zero =>
    intro i hi
    simp [Nat.pow_zero] at hi
    simp [natToBytesBE, bytesToNat, hi]
  | succ m ih =>
    intro i hi
    have hdiv : i / 256 < 256 ^ m := by
      rw [Nat.div_lt_iff_lt_mul (by omega)]
      calc i < 256 ^ (m + 1) := hi
        _ = 256 ^ m * 256 := by rw [Nat.pow_succ]
    rw [natToBytesBE, bytesToNat_append_one, ih (i / 256) hdiv]
    omega

theorem lookup_mem_fst {β : Type} :
    ∀ (l : List (String × β)) (a : String) (v : β),
      l.lookup a = some v → a ∈ l.map Prod.fst := by
  intro l a v
  induction l with
  | nil => intro h; simp [List.lookup] at h
  | cons hd tl ih =>
    intro h
    obtain ⟨k, b⟩ := hd
    rw [List.lookup] at h
    cases hek : (a == k) with
    | true =>
      simp only [List.map, List.mem_cons]
      exact Or.inl (by simpa using hek)
    | false =>
      rw [hek] at h
      simp only [List.map, List.mem_cons]
      exact Or.inr (ih h)

/-- Concrete deterministic stand-ins for the external oracles, used to
evaluate the model at concrete inputs. -/
def tokenZero : Nat → Bytes := fun n => List.replicate n 0

/-- A toy AEAD cipher: appends a 16-byte all-zero tag. -/
def aeadStub : AeadClass → Bytes → Bytes → Bytes → Option Bytes → Bytes :=
  fun _ _ _ plaintext _ => plaintext ++ List.replicate 16 0

/-- The matching toy AEAD decryption: strips the last 16 bytes. -/
def aeadStubD : AeadClass → Bytes → Bytes → Bytes → Option Bytes → Option Bytes :=
  fun _ _ _ c _ => some (c.take (c.length - 16))

/-- A constant MAC oracle. -/
def hmacStub : HashAlg → Bytes → Bytes → Bytes := fun _ _ _ => [7]

/-- Claim C10: for every byte string `b`, `b64u_decode(b64u_encode(b))`
returns `b`: the decoder's padding restoration (appending `len(data) % 4`
`=` characters before urlsafe base64 decoding) inverts the unpadded
urlsafe base64 encoding for every length residue modulo 3. -/
theorem c10_b64u_decode_inverts_encode (b : Bytes) (h : ∀ x ∈ b, x < 256) :
    b64u_decode (b64u_encode b) = some b :=
  b64u_decode_encode b h

theorem c10_b64u_decode_inverts_encode_witness :
    (∀ x ∈ ([104, 105] : Bytes), x < 256) ∧
      b64u_decode (b64u_encode [104, 105]) = some [104, 105] :=
  ⟨by decide, c10_b64u_decode_inverts_encode [104, 105] (by decide)⟩

/-- Claim C1 (code bug): the claim says `generate(n)` yields a key of `n`
bits, but `generate` passes its argument to `secrets.token_bytes`, which
counts bytes: `generate(256)` yields `key_size = 2048`, and
`generate_for_alg("HS256")` likewise yields 2048 instead of the
algorithm's 256-bit requirement. -/
theorem c1_generate_key_size_in_bytes :
    SymmetricJwk.key_size (SymmetricJwk.generate tokenZero 256 none) = some 2048 ∧
    SymmetricJwk.generate_for_alg tokenZero "HS256"
      = .ok (SymmetricJwk.generate tokenZero 256 (some "HS256")) ∧
    SymmetricJwk.key_size (SymmetricJwk.generate tokenZero 256 (some "HS256")) = some 2048 ∧
    (2048 : Nat) ≠ 256 := by
  have h0 : ∀ x ∈ List.replicate 256 (0 : Nat), x < 256 := by
    intro x hx
    rw [List.eq_of_mem_replicate hx]
    omega
  have h1 := SymmetricJwk.key_size_from_bytes (List.replicate 256 0) h0 none
  have h2 := SymmetricJwk.key_size_from_bytes (List.replicate 256 0) h0 (some "HS256")
  simp only [List.length_replicate] at h1 h2
  exact ⟨h1, rfl, h2, by omega⟩

/-- Claim C2 (code bug): the parameter mappings built by
`SymmetricJwk.from_bytes` and `ECJwk.public` have no `"kty"` entry: both
write the type tag under the literal name `"key"` (`dict(key="oct", …)`,
`dict(key="EC", …)`), while `ECJwk.private` writes `kty="EC"` as
documented. -/
theorem c2_type_tag_under_wrong_name :
    (SymmetricJwk.from_bytes_params [1, 2, 3]).lookup "kty" = none ∧
    (SymmetricJwk.from_bytes_params [1, 2, 3]).lookup "key" = some (strBytes "oct") ∧
    (∃ m, ECJwk.public "P-256" 1 2 = .ok m ∧
      m.lookup "kty" = none ∧ m.lookup "key" = some (strBytes "EC")) ∧
    (∃ m, ECJwk.privateFactory "P-256" 1 2 3 = .ok m ∧
      m.lookup "kty" = some (strBytes "EC")) := by
  refine ⟨rfl, rfl, ⟨_, rfl, rfl, rfl⟩, ⟨_, rfl, rfl⟩⟩

/-- Claim C3 (code bug): with no IV supplied, `encrypt` generates
`secrets.token_bytes(iv_size)` with `iv_size = 96`, i.e. 96 random
bytes (768 bits), not the 96-bit (12-byte) IV the claim states. -/
theorem c3_generated_iv_96_bytes :
    SymmetricJwk.encrypt aeadStub tokenZero
        (SymmetricJwk.from_bytes (List.replicate 16 7) none) [] none (some "A128GCM") none
      = .ok ([], List.replicate 16 0, List.replicate 96 0) ∧
    (List.replicate 96 (0 : Nat)).length * 8 = 768 ∧ (768 : Nat) ≠ 96 := by
  refine ⟨rfl, by decide, by omega⟩

/-- Claim C4: for every algorithm of the AEAD or key-wrap table, each of
`encrypt`, `decrypt`, `wrap_key` and `unwrap_key` fails with the
key-size-mismatch error whenever the key's derived bit size differs from
the table's required key size; the result is this error for every choice
of the cryptographic oracles, so no primitive is invoked and no partial
result is returned. -/
theorem c4_key_size_gate
    (prim : AeadClass → Bytes → Bytes → Bytes → Option Bytes → Bytes)
    (primD : AeadClass → Bytes → Bytes → Bytes → Option Bytes → Option Bytes)
    (tok : Nat → Bytes) (wrapF : Bytes → Bytes → Bytes)
    (unwrapF : Bytes → Bytes → Option Bytes)
    (j : SymmetricJwk) (kb : Bytes) (a : String)
    (hkey : SymmetricJwk.key j = some kb) :
    (∀ cls ks ivs ts pt aad iv,
       SymmetricJwk.ENCRYPTION_ALGORITHMS.lookup a = some (cls, ks, ivs, ts) →
       kb.length * 8 ≠ ks →
       SymmetricJwk.encrypt prim tok j pt aad (some a) iv = .error .keySizeMismatch) ∧
    (∀ cls ks ivs ts ct tag iv aad,
       SymmetricJwk.ENCRYPTION_ALGORITHMS.lookup a = some (cls, ks, ivs, ts) →
       kb.length * 8 ≠ ks →
       SymmetricJwk.decrypt primD j ct tag iv aad (some a) = .error .keySizeMismatch) ∧
    (∀ ks keyBytes,
       SymmetricJwk.KEY_MANAGEMENT_ALGORITHMS.lookup a = some ks →
       kb.length * 8 ≠ ks →
       SymmetricJwk.wrap_key wrapF j keyBytes (some a) = .error .keySizeMismatch) ∧
    (∀ ks ck,
       SymmetricJwk.KEY_MANAGEMENT_ALGORITHMS.lookup a = some ks →
       kb.length * 8 ≠ ks →
       SymmetricJwk.unwrap_key unwrapF j ck (some a) = .error .keySizeMismatch) := by
  refine ⟨?_, ?_, ?_, ?_⟩
  · intro cls ks ivs ts pt aad iv hlk hsz
    have hmem : a ∈ SymmetricJwk.supported_encryption_algorithms j := by
      have := lookup_mem_fst _ _ _ hlk
      simpa [SymmetricJwk.supported_encryption_algorithms] using this
    have hga : get_alg j.alg (some a) (SymmetricJwk.supported_encryption_algorithms j)
        = .ok a := by simp [get_alg, hmem]
    simp [SymmetricJwk.encrypt, hga, hlk, hkey, hsz]
  · intro cls ks ivs ts ct tag iv aad hlk hsz
    have hmem : a ∈ SymmetricJwk.supported_encryption_algorithms j := by
      have := lookup_mem_fst _ _ _ hlk
      simpa [SymmetricJwk.supported_encryption_algorithms] using this
    have hga : get_alg j.alg (some a) (SymmetricJwk.supported_encryption_algorithms j)
        = .ok a := by simp [get_alg, hmem]
    simp [SymmetricJwk.decrypt, hga, hlk, hkey, hsz]
  · intro ks keyBytes hlk hsz
    have hmem : a ∈ SymmetricJwk.supported_key_management_algorithms j := by
      have := lookup_mem_fst _ _ _ hlk
      simpa [SymmetricJwk.supported_key_management_algorithms] using this
    have hga : get_alg j.alg (some a) (SymmetricJwk.supported_key_management_algorithms j)
        = .ok a := by simp [get_alg, hmem]
    simp [SymmetricJwk.wrap_key, hga, hlk, hkey, hsz]
  · intro ks ck hlk hsz
    have hmem : a ∈ SymmetricJwk.supported_key_management_algorithms j := by
      have := lookup_mem_fst _ _ _ hlk
      simpa [SymmetricJwk.supported_key_management_algorithms] using this
    have hga : get_alg j.alg (some a) (SymmetricJwk.supported_key_management_algorithms j)
        = .ok a := by simp [get_alg, hmem]
    simp [SymmetricJwk.unwrap_key, hga, hlk, hkey, hsz]

theorem c4_key_size_gate_witness :
    SymmetricJwk.key (SymmetricJwk.from_bytes (List.replicate 10 0) none)
      = some (List.replicate 10 0) ∧
    SymmetricJwk.encrypt aeadStub tokenZero
        (SymmetricJwk.from_bytes (List.replicate 10 0) none) [] none (some "A128GCM") none
      = .error .keySizeMismatch ∧
    SymmetricJwk.wrap_key (fun _ k => k)
        (SymmetricJwk.from_bytes (List.replicate 10 0) none) [1] (some "A128KW")
      = .error .keySizeMismatch := by
  have hkey : SymmetricJwk.key (SymmetricJwk.from_bytes (List.replicate 10 0) none)
      = some (List.replicate 10 0) := by decide
  have h := c4_key_size_gate aeadStub aeadStubD tokenZero (fun _ k => k) (fun _ k => some k)
    (SymmetricJwk.from_bytes (List.replicate 10 0) none) (List.replicate 10 0) "A128GCM" hkey
  have h2 := c4_key_size_gate aeadStub aeadStubD tokenZero (fun _ k => k) (fun _ k => some k)
    (SymmetricJwk.from_bytes (List.replicate 10 0) none) (List.replicate 10 0) "A128KW" hkey
  exact ⟨hkey,
    h.1 AeadClass.AESGCM 128 96 16 [] none none (by decide) (by decide),
    h2.2.2.1 128 [1] (by decide) (by decide)⟩

/-- Claim C5: for every AEAD algorithm of the table, a key of exactly the
required size, every plaintext, AAD and supplied IV: `encrypt` returns
the combined primitive output split at total length minus the table's
tag size (plus the IV), and `decrypt` on that (ciphertext, tag, iv)
triple with the same key, AAD and algorithm returns the original
plaintext, assuming the AEAD primitive round-trips at these arguments. -/
theorem c5_encrypt_decrypt_roundtrip
    (prim : AeadClass → Bytes → Bytes → Bytes → Option Bytes → Bytes)
    (primD : AeadClass → Bytes → Bytes → Bytes → Option Bytes → Option Bytes)
    (tok : Nat → Bytes) (j : SymmetricJwk) (kb : Bytes) (a : String)
    (cls : AeadClass) (ks ivs ts : Nat) (pt : Bytes) (aad : Option Bytes) (iv : Bytes)
    (hlk : SymmetricJwk.ENCRYPTION_ALGORITHMS.lookup a = some (cls, ks, ivs, ts))
    (hkey : SymmetricJwk.key j = some kb)
    (hsz : kb.length * 8 = ks)
    (hprim : primD cls kb iv (prim cls kb iv pt aad) aad = some pt) :
    SymmetricJwk.encrypt prim tok j pt aad (some a) (some iv)
      = .ok ((prim cls kb iv pt aad).take ((prim cls kb iv pt aad).length - ts),
          (prim cls kb iv pt aad).drop ((prim cls kb iv pt aad).length - ts), iv) ∧
    SymmetricJwk.decrypt primD j
        ((prim cls kb iv pt aad).take ((prim cls kb iv pt aad).length - ts))
        ((prim cls kb iv pt aad).drop ((prim cls kb iv pt aad).length - ts)) iv aad (some a)
      = .ok pt := by
  have hmem : a ∈ SymmetricJwk.supported_encryption_algorithms j := by
    have := lookup_mem_fst _ _ _ hlk
    simpa [SymmetricJwk.supported_encryption_algorithms] using this
  have hga : get_alg j.alg (some a) (SymmetricJwk.supported_encryption_algorithms j)
      = .ok a := by simp [get_alg, hmem]
  constructor
  · simp [SymmetricJwk.encrypt, hga, hlk, hkey, hsz]
  · rw [SymmetricJwk.decrypt, hga]
    simp only [hlk, hkey, List.take_append_drop, hprim]
    rw [if_neg (by omega)]

theorem c5_encrypt_decrypt_roundtrip_witness :
    SymmetricJwk.ENCRYPTION_ALGORITHMS.lookup "A128GCM"
      = some (AeadClass.AESGCM, 128, 96, 16) ∧
    SymmetricJwk.key (SymmetricJwk.from_bytes (List.replicate 16 0) none)
      = some (List.replicate 16 0) ∧
    (List.replicate 16 (0 : Nat)).length * 8 = 128 ∧
    aeadStubD AeadClass.AESGCM (List.replicate 16 0) [3]
        (aeadStub AeadClass.AESGCM (List.replicate 16 0) [3] [1, 2] none) none = some [1, 2] ∧
    (SymmetricJwk.encrypt aeadStub tokenZero (SymmetricJwk.from_bytes (List.replicate 16 0) none)
        [1, 2] none (some "A128GCM") (some [3])
      = .ok ((aeadStub AeadClass.AESGCM (List.replicate 16 0) [3] [1, 2] none).take
            ((aeadStub AeadClass.AESGCM (List.replicate 16 0) [3] [1, 2] none).length - 16),
          (aeadStub AeadClass.AESGCM (List.replicate 16 0) [3] [1, 2] none).drop
            ((aeadStub AeadClass.AESGCM (List.replicate 16 0) [3] [1, 2] none).length - 16), [3]) ∧
     SymmetricJwk.decrypt aeadStubD (SymmetricJwk.from_bytes (List.replicate 16 0) none)
        ((aeadStub AeadClass.AESGCM (List.replicate 16 0) [3] [1, 2] none).take
          ((aeadStub AeadClass.AESGCM (List.replicate 16 0) [3] [1, 2] none).length - 16))
        ((aeadStub AeadClass.AESGCM (List.replicate 16 0) [3] [1, 2] none).drop
          ((aeadStub AeadClass.AESGCM (List.replicate 16 0) [3] [1, 2] none).length - 16))
        [3] none (some "A128GCM")
      = .ok [1, 2]) := by
  have hkey : SymmetricJwk.key (SymmetricJwk.from_bytes (List.replicate 16 0) none)
      = some (List.replicate 16 0) := by decide
  exact ⟨by decide, hkey, by decide, by decide,
    c5_encrypt_decrypt_roundtrip aeadStub aeadStubD tokenZero
      (SymmetricJwk.from_bytes (List.replicate 16 0) none) (List.replicate 16 0) "A128GCM"
      AeadClass.AESGCM 128 96 16 [1, 2] none [3] (by decide) hkey (by decide) (by decide)⟩

/-- Claim C6 (counterexample): decoding an encoded coordinate whose
decoded byte length differs from the curve's coordinate size does NOT
fail: a P-256 key whose `x` decodes to a single byte passes `_validate`
and `x_coordinate` happily returns the integer. -/
theorem c6_decode_length_unchecked :
    ECJwk._validate ⟨"P-256", b64u_encode [5], b64u_encode [9], none, none⟩ = .ok () ∧
    ECJwk.x_coordinate ⟨"P-256", b64u_encode [5], b64u_encode [9], none, none⟩ = some 5 ∧
    (b64u_decode (b64u_encode [5])).map List.length = some 1 ∧
    ECJwk.CURVES.lookup "P-256" = some P_256 ∧
    P_256.coordinate_size = 32 ∧ (1 : Nat) ≠ 32 := by
  exact ⟨rfl, rfl, rfl, rfl, rfl, by omega⟩

/-- Claim C6 (amended): for every registered curve, encoding a coordinate
integer that fits the curve's coordinate size zero-pads it on the left to
exactly that many bytes (preserving the value); decoding, however,
performs no length check: the coordinate accessors return the decoded
big-endian integer for a decoded byte string of ANY length, and
`_validate` accepts any decodable coordinates. -/
theorem c6_coordinate_encoding_contract :
    (∀ crv curve xv, ECJwk.CURVES.lookup crv = some curve →
       xv < 256 ^ curve.coordinate_size →
       intToBytes xv curve.coordinate_size = some (natToBytesBE curve.coordinate_size xv) ∧
       (natToBytesBE curve.coordinate_size xv).length = curve.coordinate_size ∧
       bytesToNat (natToBytesBE curve.coordinate_size xv) = xv) ∧
    (∀ (j : ECJwk) (bs : Bytes), b64u_decode j.x = some bs →
       ECJwk.x_coordinate j = some (bytesToNat bs)) ∧
    (∀ (j : ECJwk) (bs : Bytes), b64u_decode j.y = some bs →
       ECJwk.y_coordinate j = some (bytesToNat bs)) ∧
    (∀ (j : ECJwk) (db bs : Bytes), j.d = some db → b64u_decode db = some bs →
       ECJwk.ecc_private_key j = some (bytesToNat bs)) ∧
    (∀ (j : ECJwk) (curve : EllipticCurve) (bx bv : Bytes),
       ECJwk.CURVES.lookup j.crv = some curve →
       b64u_decode j.x = some bx → b64u_decode j.y = some bv → j.d = none →
       ECJwk._validate j = .ok ()) := by
  refine ⟨?_, ?_, ?_, ?_, ?_⟩
  · intro crv curve xv _hcrv hxv
    exact ⟨by simp [intToBytes, hxv], natToBytesBE_length _ _, bytesToNat_natToBytesBE _ _ hxv⟩
  · intro j bs hbs
    simp [ECJwk.x_coordinate, hbs]
  · intro j bs hbs
    simp [ECJwk.y_coordinate, hbs]
  · intro j db bs hd hbs
    simp [ECJwk.ecc_private_key, hd, hbs]
  · intro j curve bx bv hc hx hy hd
    rw [ECJwk._validate, hc]
    simp only [hx, hy, hd]

theorem c6_coordinate_encoding_contract_witness :
    ECJwk.CURVES.lookup "P-256" = some P_256 ∧
    (5 : Nat) < 256 ^ P_256.coordinate_size ∧
    (intToBytes 5 P_256.coordinate_size = some (natToBytesBE P_256.coordinate_size 5) ∧
     (natToBytesBE P_256.coordinate_size 5).length = P_256.coordinate_size ∧
     bytesToNat (natToBytesBE P_256.coordinate_size 5) = 5) ∧
    (b64u_decode ((⟨"P-256", b64u_encode [5, 6], [], none, none⟩ : ECJwk)).x
        = some [5, 6] ∧
     ECJwk.x_coordinate ⟨"P-256", b64u_encode [5, 6], [], none, none⟩
        = some (bytesToNat [5, 6])) := by
  have hx : b64u_decode ((⟨"P-256", b64u_encode [5, 6], [], none, none⟩ : ECJwk)).x
      = some [5, 6] := by decide
  exact ⟨by decide, by decide,
    c6_coordinate_encoding_contract.1 "P-256" P_256 5 (by decide) (by decide),
    hx, c6_coordinate_encoding_contract.2.1 _ [5, 6] hx⟩

/-- Claim C7: for every symmetric key (with a decodable `k`), every data
and every algorithm of the HMAC signing table, verifying the signature
produced by `sign` with the same algorithm returns true; and `verify`
returns false when no tried candidate algorithm's freshly computed MAC
byte-equals the supplied signature. -/
theorem c7_sign_verify_roundtrip
    (hmacF : HashAlg → Bytes → Bytes → Bytes) (j : SymmetricJwk) (kb : Bytes)
    (data : Bytes) (a : String) (h : HashAlg) (m : Nat)
    (hlk : SymmetricJwk.SIGNATURE_ALGORITHMS.lookup a = some (h, m))
    (hkey : SymmetricJwk.key j = some kb) :
    (SymmetricJwk.sign hmacF j data (some a) = .ok (hmacF h kb data) ∧
     SymmetricJwk.verify hmacF j data (hmacF h kb data) (some a) none = .ok true) ∧
    (∀ signature cands,
       (∀ c ∈ cands, ∃ h2 m2, SymmetricJwk.SIGNATURE_ALGORITHMS.lookup c = some (h2, m2) ∧
          hmacF h2 kb data ≠ signature) →
       SymmetricJwk.verify hmacF j data signature none (some cands) = .ok false) := by
  have hmem : a ∈ SymmetricJwk.supported_signing_algorithms j := by
    have := lookup_mem_fst _ _ _ hlk
    simpa [SymmetricJwk.supported_signing_algorithms] using this
  have hga : get_alg j.alg (some a) (SymmetricJwk.supported_signing_algorithms j)
      = .ok a := by simp [get_alg, hmem]
  have hgas : get_algs j.alg (some a) none (SymmetricJwk.supported_signing_algorithms j)
      = .ok [a] := by simp [get_algs, hmem]
  refine ⟨⟨?_, ?_⟩, ?_⟩
  · rw [SymmetricJwk.sign, hga]
    simp only [hlk, hkey]
  · rw [SymmetricJwk.verify, hgas]
    simp [SymmetricJwk.verifyLoop, hlk, hkey]
  · intro signature cands hc
    have hloop : ∀ l : List String,
        (∀ c ∈ l, ∃ h2 m2, SymmetricJwk.SIGNATURE_ALGORITHMS.lookup c = some (h2, m2) ∧
          hmacF h2 kb data ≠ signature) →
        SymmetricJwk.verifyLoop hmacF j data signature l = .ok false := by
      intro l
      induction l with
      | nil => intro _; rfl
      | cons c rest ih =>
        intro hcl
        obtain ⟨h2, m2, hlk2, hne⟩ := hcl c (by simp)
        simp only [SymmetricJwk.verifyLoop, hlk2, hkey, if_neg hne]
        exact ih (fun c2 hc2 => hcl c2 (by simp [hc2]))
    have hgas2 : get_algs j.alg none (some cands)
        (SymmetricJwk.supported_signing_algorithms j) = .ok cands := by simp [get_algs]
    rw [SymmetricJwk.verify, hgas2]
    exact hloop cands hc

theorem c7_sign_verify_roundtrip_witness :
    SymmetricJwk.SIGNATURE_ALGORITHMS.lookup "HS256" = some (HashAlg.SHA256, 256) ∧
    SymmetricJwk.key (SymmetricJwk.from_bytes [0] none) = some [0] ∧
    (SymmetricJwk.sign hmacStub (SymmetricJwk.from_bytes [0] none) [1] (some "HS256")
        = .ok (hmacStub HashAlg.SHA256 [0] [1]) ∧
     SymmetricJwk.verify hmacStub (SymmetricJwk.from_bytes [0] none) [1]
        (hmacStub HashAlg.SHA256 [0] [1]) (some "HS256") none = .ok true) ∧
    SymmetricJwk.verify hmacStub (SymmetricJwk.from_bytes [0] none) [1] [9] none
        (some ["HS384"]) = .ok false := by
  have hkey : SymmetricJwk.key (SymmetricJwk.from_bytes [0] none) = some [0] := by decide
  have h := c7_sign_verify_roundtrip hmacStub (SymmetricJwk.from_bytes [0] none) [0] [1]
    "HS256" HashAlg.SHA256 256 (by decide) hkey
  refine ⟨by decide, hkey, h.1, h.2 [9] ["HS384"] ?_⟩
  intro c hcm
  rw [List.mem_singleton] at hcm
  subst hcm
  exact ⟨HashAlg.SHA384, 384, by decide, by decide⟩

/-- Claim C8: with an explicitly requested algorithm, `sign` fails with
the unsupported-algorithm error exactly when the algorithm is not in the
signing table, and never fails because of the key's size: for a key of
any byte length and any table algorithm it returns the MAC. -/
theorem c8_sign_alg_gate_only
    (hmacF : HashAlg → Bytes → Bytes → Bytes) (j : SymmetricJwk) (kb : Bytes)
    (data : Bytes) (a : String)
    (hkey : SymmetricJwk.key j = some kb) :
    (a ∈ SymmetricJwk.SIGNATURE_ALGORITHMS.map Prod.fst →
       ∃ h m, SymmetricJwk.SIGNATURE_ALGORITHMS.lookup a = some (h, m) ∧
         SymmetricJwk.sign hmacF j data (some a) = .ok (hmacF h kb data)) ∧
    (a ∉ SymmetricJwk.SIGNATURE_ALGORITHMS.map Prod.fst →
       SymmetricJwk.sign hmacF j data (some a) = .error (.unsupportedAlg a)) ∧
    (∀ e, SymmetricJwk.sign hmacF j data (some a) = .error e → e = .unsupportedAlg a) := by
  have hp1 : a ∈ SymmetricJwk.SIGNATURE_ALGORITHMS.map Prod.fst →
      ∃ h m, SymmetricJwk.SIGNATURE_ALGORITHMS.lookup a = some (h, m) ∧
        SymmetricJwk.sign hmacF j data (some a) = .ok (hmacF h kb data) := by
    intro hmem
    have hga : get_alg j.alg (some a) (SymmetricJwk.supported_signing_algorithms j)
        = .ok a := by
      simp only [SymmetricJwk.supported_signing_algorithms]
      simp [get_alg, hmem]
    have hcases : a = "HS256" ∨ a = "HS384" ∨ a = "HS512" := by
      simpa [SymmetricJwk.SIGNATURE_ALGORITHMS] using hmem
    rcases hcases with rfl | rfl | rfl
    · refine ⟨HashAlg.SHA256, 256, rfl, ?_⟩
      rw [SymmetricJwk.sign, hga]
      simp only [hkey]
      rfl
    · refine ⟨HashAlg.SHA384, 384, rfl, ?_⟩
      rw [SymmetricJwk.sign, hga]
      simp only [hkey]
      rfl
    · refine ⟨HashAlg.SHA512, 512, rfl, ?_⟩
      rw [SymmetricJwk.sign, hga]
      simp only [hkey]
      rfl
  have hp2 : a ∉ SymmetricJwk.SIGNATURE_ALGORITHMS.map Prod.fst →
      SymmetricJwk.sign hmacF j data (some a) = .error (.unsupportedAlg a) := by
    intro hnmem
    have hmem2 : a ∉ SymmetricJwk.supported_signing_algorithms j := by
      simpa [SymmetricJwk.supported_signing_algorithms] using hnmem
    rw [SymmetricJwk.sign]
    simp [get_alg, hmem2]
  refine ⟨hp1, hp2, ?_⟩
  intro e he
  by_cases hmem : a ∈ SymmetricJwk.SIGNATURE_ALGORITHMS.map Prod.fst
  · obtain ⟨h, m, _, hsig⟩ := hp1 hmem
    rw [hsig] at he
    cases he
  · rw [hp2 hmem] at he
    injection he with h2
    exact h2.symm

theorem c8_sign_alg_gate_only_witness :
    SymmetricJwk.key (SymmetricJwk.from_bytes [0] none) = some [0] ∧
    ("ZZZ" ∉ SymmetricJwk.SIGNATURE_ALGORITHMS.map Prod.fst) ∧
    SymmetricJwk.sign hmacStub (SymmetricJwk.from_bytes [0] none) [2] (some "ZZZ")
      = .error (.unsupportedAlg "ZZZ") := by
  have hkey : SymmetricJwk.key (SymmetricJwk.from_bytes [0] none) = some [0] := by decide
  exact ⟨hkey, by decide,
    (c8_sign_alg_gate_only hmacStub (SymmetricJwk.from_bytes [0] none) [0] [2] "ZZZ" hkey).2.1
      (by decide)⟩

theorem sigalg_table_lookup_self :
    ∀ p ∈ ECJwk.SIGNATURE_ALGORITHMS, ECJwk.SIGNATURE_ALGORITHMS.lookup p.1 = some p.2 := by
  decide

/-- Claim C9: `supported_signing_algorithms` on a P-256 key returns
exactly `["ES256"]`, on a secp256k1 key exactly `["ES256K"]`, and in
general only identifiers whose table entry requires exactly the key's
curve. -/
theorem c9_supported_signing_algorithms_curve_gated :
    (∀ xv yv dv av, ECJwk.supported_signing_algorithms
       ⟨"P-256", xv, yv, dv, av⟩ = .ok ["ES256"]) ∧
    (∀ xv yv dv av, ECJwk.supported_signing_algorithms
       ⟨"secp256k1", xv, yv, dv, av⟩ = .ok ["ES256K"]) ∧
    (∀ (j : ECJwk) (curve : EllipticCurve) (names : List String),
       ECJwk.get_curve j.crv = .ok curve →
       ECJwk.supported_signing_algorithms j = .ok names →
       ∀ n ∈ names, ∃ siga, ECJwk.SIGNATURE_ALGORITHMS.lookup n = some siga ∧
         siga.curve = curve) := by
  refine ⟨fun xv yv dv av => rfl, fun xv yv dv av => rfl, ?_⟩
  intro j curve names hgc hsa n hn
  rw [ECJwk.supported_signing_algorithms, hgc] at hsa
  injection hsa with hsa
  subst hsa
  obtain ⟨r, hr, rfl⟩ := List.mem_map.mp hn
  have hrf := List.mem_filter.mp hr
  exact ⟨r.2, sigalg_table_lookup_self r hrf.1, of_decide_eq_true hrf.2⟩

theorem c9_supported_signing_algorithms_curve_gated_witness :
    ECJwk.supported_signing_algorithms
      (⟨"P-256", [], [], none, none⟩ : ECJwk) = .ok ["ES256"] ∧
    ECJwk.supported_signing_algorithms
      (⟨"secp256k1", [], [], none, none⟩ : ECJwk) = .ok ["ES256K"] ∧
    (∃ siga, ECJwk.SIGNATURE_ALGORITHMS.lookup "ES256" = some siga ∧ siga.curve = P_256) := by
  refine ⟨c9_supported_signing_algorithms_curve_gated.1 [] [] none none,
    c9_supported_signing_algorithms_curve_gated.2.1 [] [] none none,
    c9_supported_signing_algorithms_curve_gated.2.2
      (⟨"P-256", [], [], none, none⟩ : ECJwk) P_256 ["ES256"] rfl
      (c9_supported_signing_algorithms_curve_gated.1 [] [] none none) "ES256" (by simp)⟩

end Jwskate
